import Mathlib

/-!
# Ordering reconciliation of the "no results" layout editor

A shallow embedding of the pure logic of
`src/pages/website-settings/components/NoResultWidget.jsx`:
the drag-and-drop handler `moveItem`, the read accessor `getItems`,
the label lookup `getDisplayName` and the two branches of the
"Suggested search terms" checkbox handler.

JavaScript arrays are lists, strings are `String`, the numeric `order`
field is an `Int`, an absent value (`undefined` / `null`) is `none`.
The form field `instantSearchWidgetCustomization.defaultOrNoResultOrdering`
is the `ordering` component of `Form`; every `setValue` on it is logged.
-/

namespace NoResultWidget

/-! ## Data model -/

/-- One entry of the flat ordering list. -/
structure Placement where
  column : String
  «section» : String
  sectionType : Option String
  type : String
  id : String
  order : Int
  deriving DecidableEq, Repr

/-- The `source` payload carried by a dragged item. -/
structure Source where
  sourceColumn : String
  sourceSection : String
  sourceId : String
  deriving DecidableEq, Repr

/-- The `destination` built by the drop handler of a `Section`. -/
structure Destination where
  destColumn : String
  destSection : String
  destIndex : Int
  deriving DecidableEq, Repr

/-- The watched form state: the stored ordering list and the log of the
values passed to `setValue` for that field, oldest first. -/
structure Form where
  ordering : List Placement
  writes : List (List Placement)
  deriving DecidableEq, Repr

/-- The call `setValue("…defaultOrNoResultOrdering", value, …)`. -/
def setValue (form : Form) (value : List Placement) : Form :=
  { ordering := value, writes := form.writes ++ [value] }

/-! ## Array primitives -/

/-- `Array.prototype.findIndex`: position of the first element satisfying
`p`, `none` standing for the result `-1`. -/
def findIndex {α : Type} (p : α → Bool) : List α → Option Nat
  | [] => none
  | x :: xs => if p x then some 0 else (findIndex p xs).map (· + 1)

/-- The relative-index normalisation used by `Array.prototype.slice`:
a negative index counts from the end, and the result is clamped to
`[0, len]`. -/
def relIndex (len : Nat) (k : Int) : Nat :=
  if k < 0 then (len + k).toNat else min k.toNat len

/-- The call `xs.slice(0, k)`. -/
def sliceTo {α : Type} (xs : List α) (k : Int) : List α :=
  (xs.drop (relIndex xs.length 0)).take (relIndex xs.length k - relIndex xs.length 0)

/-- The call `xs.slice(k)`. -/
def sliceFrom {α : Type} (xs : List α) (k : Int) : List α :=
  xs.drop (relIndex xs.length k)

/-- The call `xs.map((item, index) => ({ ...item, order: index + 1 }))`,
with `start` the index of the head. -/
def renumberFrom (start : Nat) : List Placement → List Placement
  | [] => []
  | item :: rest => { item with order := (start : Int) + 1 } :: renumberFrom (start + 1) rest

/-! ## `moveItem` -/

/-- The predicate given to `findIndex` on lines 42-47. -/
def isSource (source : Source) (item : Placement) : Bool :=
  item.column == source.sourceColumn &&
  item.«section» == source.sourceSection &&
  item.id == source.sourceId

/-- The predicate of the two filters on lines 61-63 and 76-78. -/
def inDestination (destination : Destination) (item : Placement) : Bool :=
  item.column == destination.destColumn && item.«section» == destination.destSection

/-- The array `reorderedDestinationGroup` of lines 65-72. -/
def reorderedDestinationGroup (destinationGroup : List Placement) (movedItem : Placement)
    (destIndex : Int) : List Placement :=
  renumberFrom 0
    (sliceTo destinationGroup destIndex ++ [movedItem] ++ sliceFrom destinationGroup destIndex)

/-- The value `finalOrdering` computed by `moveItem` from the list read
with `getValues`; `none` is the early return taken when `itemIndex === -1`. -/
def finalOrdering (ordering : List Placement) (source : Source) (destination : Destination) :
    Option (List Placement) :=
  match findIndex (isSource source) ordering with
  | none => none
  | some itemIndex =>
    match ordering[itemIndex]? with
    | none => none
    | some movedItem =>
      let updatedOrdering := ordering.eraseIdx itemIndex
      let destinationGroup := updatedOrdering.filter (inDestination destination)
      some (updatedOrdering.filter (fun item => !inDestination destination item) ++
        reorderedDestinationGroup destinationGroup movedItem destination.destIndex)

/-- The handler `moveItem(source, destination)`: on the early return the
form is left as it is, otherwise `finalOrdering` is written with `setValue`. -/
def moveItem (form : Form) (source : Source) (destination : Destination) : Form :=
  match finalOrdering form.ordering source destination with
  | none => form
  | some final => setValue form final

/-! ## `getItems` -/

/-- The filter predicate of `getItems`. -/
def inGroup (column sect : String) (item : Placement) : Bool :=
  item.column == column && item.«section» == sect

/-- The comparator `(a, b) => a.order - b.order` read as "a may stay before b". -/
def orderLe (a b : Placement) : Prop := a.order ≤ b.order

instance : DecidableRel orderLe := fun a b => inferInstanceAs (Decidable (a.order ≤ b.order))

/-- The accessor `getItems(column, section)` over the watched `ordering`
value, which is `none` while the field is absent. `Array.prototype.sort`
is a stable sort, here insertion sort. -/
def getItems (ordering : Option (List Placement)) (column sect : String) : List Placement :=
  match ordering with
  | none => []
  | some list => (list.filter (inGroup column sect)).insertionSort orderLe

/-! ## `getDisplayName` -/

/-- The nested `fieldData` record of a product. -/
structure FieldData where
  name : Option String
  deriving DecidableEq, Repr

/-- A record of one of the four lookup datasets. A field a record does not
have is `none`. -/
structure DataItem where
  _id : String
  displayName : Option String
  fieldData : Option FieldData
  title : Option String
  term : Option String
  deriving DecidableEq, Repr

/-- The object `dataSources`; a dataset that is `undefined` is `none`. -/
structure DataSources where
  siteCollections : Option (List DataItem)
  siteProducts : Option (List DataItem)
  sitePages : Option (List DataItem)
  userSuggestedTerms : Option (List DataItem)
  deriving DecidableEq, Repr

/-- The outcome of a call: a returned value or a thrown `TypeError`. -/
inductive JsError where
  | typeError
  deriving DecidableEq, Repr

/-- The property names an object literal inherits from `Object.prototype`. -/
def objectPrototypeKeys : List String :=
  ["constructor", "__defineGetter__", "__defineSetter__", "hasOwnProperty",
   "__lookupGetter__", "__lookupSetter__", "isPrototypeOf", "propertyIsEnumerable",
   "toString", "valueOf", "__proto__", "toLocaleString"]

/-- What reading a property of the object literal `typeToDatasetMap` gives. -/
inductive Property where
  /-- One of the four keys of the literal, holding a dataset or `undefined`. -/
  | own (dataset : Option (List DataItem))
  /-- A member of `Object.prototype`: a truthy value without a `find` method. -/
  | inherited
  /-- No such property: `undefined`. -/
  | undefined
  deriving DecidableEq, Repr

/-- The read `typeToDatasetMap[type]` of line 109. -/
def typeToDatasetMap (dataSources : DataSources) (type : String) : Property :=
  if type = "Collections" then .own dataSources.siteCollections
  else if type = "Products" then .own dataSources.siteProducts
  else if type = "Pages" then .own dataSources.sitePages
  else if type = "suggestedTerms" then .own dataSources.userSuggestedTerms
  else if type ∈ objectPrototypeKeys then .inherited
  else .undefined

/-- The expression `label || null` on an optional string: an absent or
empty label is falsy. -/
def orNull (label : Option String) : Option String :=
  match label with
  | none => none
  | some text => if text = "" then none else some text

/-- The function `getDisplayName(item, dataSources)`. -/
def getDisplayName (item : Placement) (dataSources : DataSources) :
    Except JsError (Option String) :=
  match typeToDatasetMap dataSources item.type with
  | .undefined => .ok none
  | .own none => .ok none
  | .inherited => .error .typeError
  | .own (some dataset) =>
    match dataset.find? (fun dataItem => dataItem._id == item.id) with
    | none => .ok none
    | some matchedItem =>
      if item.type = "Collections" then .ok (orNull matchedItem.displayName)
      else if item.type = "Products" then
        .ok (orNull (matchedItem.fieldData.bind (fun fieldData => fieldData.name)))
      else if item.type = "Pages" then .ok (orNull matchedItem.title)
      else if item.type = "suggestedTerms" then .ok (orNull matchedItem.term)
      else .ok none

/-- The reference of the specification for `resolveDisplayName`: null for a
type outside the four, an absent dataset or no entry with the id, otherwise
the type-specific label of the first entry with the id. -/
def resolveDisplayNameSpec (placement : Placement) (datasets : DataSources) : Option String :=
  let dataset : Option (List DataItem) :=
    if placement.type = "Collections" then datasets.siteCollections
    else if placement.type = "Products" then datasets.siteProducts
    else if placement.type = "Pages" then datasets.sitePages
    else if placement.type = "suggestedTerms" then datasets.userSuggestedTerms
    else none
  match dataset with
  | none => none
  | some entries =>
    match entries.find? (fun entry => entry._id == placement.id) with
    | none => none
    | some entry =>
      if placement.type = "Collections" then entry.displayName
      else if placement.type = "Products" then entry.fieldData.bind (fun fieldData => fieldData.name)
      else if placement.type = "Pages" then entry.title
      else entry.term

/-! ## The "Suggested search terms" checkbox -/

/-- The array `suggestedTermsToAdd` of lines 174-181, with `start` the
index of the head of `terms`. -/
def suggestedTermsFrom (start : Nat) : List DataItem → List Placement
  | [] => []
  | term :: rest =>
    { column := "columnTwo", «section» := "suggestedTerms", sectionType := some "suggestedTerms",
      type := "suggestedTerms", id := term._id, order := (start : Int) + 1 } ::
      suggestedTermsFrom (start + 1) rest

/-- The value written by the checked branch:
`[...currentNoResultOrdering, ...suggestedTermsToAdd]`. -/
def bulkAppend (currentNoResultOrdering : List Placement) (userSuggestedTerms : List DataItem) :
    List Placement :=
  currentNoResultOrdering ++ suggestedTermsFrom 0 userSuggestedTerms

/-- The value `updatedNoResultOrdering` written by the unchecked branch. -/
def bulkRemoveByType (currentNoResultOrdering : List Placement) : List Placement :=
  currentNoResultOrdering.filter (fun entry => entry.type != "suggestedTerms")

/-- The `onChange` handler of the checkbox, lines 166-215. -/
def onChange (isChecked : Bool) (userSuggestedTerms : List DataItem) (form : Form) : Form :=
  if isChecked then setValue form (bulkAppend form.ordering userSuggestedTerms)
  else setValue form (bulkRemoveByType form.ordering)

/-! ## The group invariant of the data model -/

/-- The `order` values of a group, as displayed. -/
def groupOrders (list : List Placement) (column sect : String) : List Int :=
  (getItems (some list) column sect).map (fun item => item.order)

/-- The values `1, 2, …, n`. -/
def oneTo (n : Nat) : List Int := (List.range' 1 n).map Int.ofNat

/-- Invariant of the data model: in every (column, section) group the
`order` values are exactly `1..N`, `N` the size of the group. -/
def GroupInvariant (list : List Placement) : Prop :=
  ∀ column sect : String,
    groupOrders list column sect = oneTo (getItems (some list) column sect).length

instance : IsTotal Placement orderLe := ⟨fun a b => Int.le_total a.order b.order⟩

instance : IsTrans Placement orderLe := ⟨fun _ _ _ hab hbc => Int.le_trans hab hbc⟩

/-! ## Example lists -/

/-- An entry of group (columnOne, sectionOne) and one of (columnTwo, sectionOne). -/
def crossGroupList : List Placement :=
  [{ column := "columnOne", «section» := "sectionOne", sectionType := none,
     type := "Collections", id := "c1", order := 1 },
   { column := "columnTwo", «section» := "sectionOne", sectionType := none,
     type := "Products", id := "p1", order := 1 }]

/-- The scenario list of the specification: `p1`, `p2` in (columnTwo, sectionOne). -/
def scenarioList : List Placement :=
  [{ column := "columnTwo", «section» := "sectionOne", sectionType := none,
     type := "Products", id := "p1", order := 1 },
   { column := "columnTwo", «section» := "sectionOne", sectionType := none,
     type := "Products", id := "p2", order := 2 }]

/-- Three products of group (columnTwo, sectionOne), stored in the order of
their `order` values. -/
def sortedGroupList : List Placement :=
  [{ column := "columnTwo", «section» := "sectionOne", sectionType := none,
     type := "Products", id := "p1", order := 1 },
   { column := "columnTwo", «section» := "sectionOne", sectionType := none,
     type := "Products", id := "p2", order := 2 },
   { column := "columnTwo", «section» := "sectionOne", sectionType := none,
     type := "Products", id := "p3", order := 3 }]

/-- The same group stored in the flat list as `p2, p3, p1`: what
`sortedGroupList` becomes when `p1` is dragged onto the empty section
(columnOne, sectionOne). -/
def unsortedGroupList : List Placement :=
  [{ column := "columnTwo", «section» := "sectionOne", sectionType := none,
     type := "Products", id := "p2", order := 2 },
   { column := "columnTwo", «section» := "sectionOne", sectionType := none,
     type := "Products", id := "p3", order := 3 },
   { column := "columnTwo", «section» := "sectionOne", sectionType := none,
     type := "Products", id := "p1", order := 1 }]

/-- The reference of the specification for a reorder inside one group:
take the displayed group, remove the item with the source's id, reinsert it
at position `destIndex` and renumber from 1. -/
def sameGroupReorderSpec (list : List Placement) (source : Source) (destIndex : Nat) :
    Option (List Placement) :=
  let group := getItems (some list) source.sourceColumn source.sourceSection
  match findIndex (fun item => item.id == source.sourceId) group with
  | none => none
  | some position =>
    match group[position]? with
    | none => none
    | some moved =>
      let others := group.eraseIdx position
      some (renumberFrom 0 (others.take destIndex ++ [moved] ++ others.drop destIndex))

/-- Lookup datasets with one collection whose label is the empty string. -/
def emptyLabelSources : DataSources :=
  { siteCollections := some [{ _id := "c1", displayName := some "", fieldData := none,
                               title := none, term := none }],
    siteProducts := none, sitePages := some [], userSuggestedTerms := none }

/-- A placement of the given type and id, in (columnOne, sectionOne). -/
def placementOf (type id : String) : Placement :=
  { column := "columnOne", «section» := "sectionOne", sectionType := none,
    type := type, id := id, order := 1 }

/-! ## Sequences of core operations -/

/-- The entries of type suggestedTerms are exactly the members of the group
(columnTwo, suggestedTerms). -/
def TermsSegregated (list : List Placement) : Prop :=
  ∀ entry ∈ list, (entry.type = "suggestedTerms" ↔
    (entry.column = "columnTwo" ∧ entry.«section» = "suggestedTerms"))

/-- One core operation, restricted to the uses that keep the group
invariant: a successful `moveItem` inside one group, the toggle switched on
while the group (columnTwo, suggestedTerms) is empty, the toggle switched
off. -/
inductive Step : List Placement → List Placement → Prop where
  | moveWithinGroup (list : List Placement) (source : Source) (destination : Destination)
      (final : List Placement)
      (hsame : source.sourceColumn = destination.destColumn ∧
        source.sourceSection = destination.destSection)
      (hmove : finalOrdering list source destination = some final) : Step list final
  | toggleOn (list : List Placement) (terms : List DataItem)
      (hoff : ∀ entry ∈ list, inGroup "columnTwo" "suggestedTerms" entry = false) :
      Step list (bulkAppend list terms)
  | toggleOff (list : List Placement) : Step list (bulkRemoveByType list)

/-- One core operation with no restriction on its use. -/
inductive AnyStep : List Placement → List Placement → Prop where
  | moveItem (list : List Placement) (source : Source) (destination : Destination)
      (final : List Placement)
      (hmove : finalOrdering list source destination = some final) : AnyStep list final
  | bulkAppend (list : List Placement) (terms : List DataItem) :
      AnyStep list (bulkAppend list terms)
  | bulkRemoveByType (list : List Placement) : AnyStep list (bulkRemoveByType list)

/-- Two suggested terms of the site. -/
def twoTerms : List DataItem :=
  [{ _id := "t1", displayName := none, fieldData := none, title := none, term := some "shoes" },
   { _id := "t2", displayName := none, fieldData := none, title := none, term := some "hats" }]

/-- A group (columnTwo, sectionOne) holding a suggested term before a product. -/
def mixedGroupList : List Placement :=
  [{ column := "columnTwo", «section» := "sectionOne", sectionType := none,
     type := "suggestedTerms", id := "t1", order := 1 },
   { column := "columnTwo", «section» := "sectionOne", sectionType := none,
     type := "Products", id := "p2", order := 2 }]

/-! ## Fields other than `order`, and the drop handler -/

/-- The (column, section, type, id) tuple of an entry. -/
def placementKey (item : Placement) : String × String × String × String :=
  (item.column, item.«section», item.type, item.id)

/-- An entry with its `order` blanked: all the other fields. -/
def withoutOrder (item : Placement) : Placement :=
  { item with order := 0 }

/-- The expression `Math.min(Math.max(0, Math.floor(y / 50)), items.length)`
of line 287, the pointer offset `y` taken as an exact rational. -/
def destIndexOf (y : ℚ) (itemsLength : Nat) : Int :=
  min (max 0 ⌊y / 50⌋) (itemsLength : Int)

/-- The object `destination` built by the drop handler of a `Section`
(lines 280-288) from the pointer offset and the top of the bounding box. -/
def dropDestination (columnName sectionName : String) (items : List Placement)
    (offsetY boundingTop : ℚ) : Destination :=
  { destColumn := columnName, destSection := sectionName,
    destIndex := destIndexOf (offsetY - boundingTop) items.length }

/-- The drop handler of a `Section`: `moveItem(item.source, destination)`. -/
def dropOnSection (form : Form) (columnName sectionName : String) (items : List Placement)
    (source : Source) (offsetY boundingTop : ℚ) : Form :=
  moveItem form source (dropDestination columnName sectionName items offsetY boundingTop)

/-- The `clamp(value, lo, hi)` of the specification. -/
def clampSpec (value lo hi : Int) : Int :=
  if value < lo then lo else if hi < value then hi else value

/-! ## Lemmas on the array primitives -/

theorem findIndex_eq_none_iff {α : Type} (p : α → Bool) (l : List α) :
    findIndex p l = none ↔ ∀ x ∈ l, p x = false := by
  induction l with
  | nil => simp [findIndex]
  | cons a l ih =>
    by_cases ha : p a = true
    · simp [findIndex, ha]
    · simp [findIndex, ha, ih]

theorem findIndex_eq_some {α : Type} (p : α → Bool) (l : List α) (i : Nat)
    (h : findIndex p l = some i) : ∃ x, l[i]? = some x ∧ p x = true := by
  induction l generalizing i with
  | nil => simp [findIndex] at h
  | cons a l ih =>
    by_cases ha : p a = true
    · simp [findIndex, ha] at h
      subst h
      exact ⟨a, by simp, ha⟩
    · simp [findIndex, ha] at h
      obtain ⟨j, hj, rfl⟩ := h
      obtain ⟨x, hx, hpx⟩ := ih j hj
      exact ⟨x, by simpa using hx, hpx⟩

theorem relIndex_le (len : Nat) (k : Int) : relIndex len k ≤ len := by
  unfold relIndex
  split <;> omega

theorem relIndex_of_mem (len : Nat) (k : Int) (h0 : 0 ≤ k) (h1 : k ≤ len) :
    relIndex len k = k.toNat := by
  unfold relIndex
  split <;> omega

theorem sliceTo_eq_take {α : Type} (xs : List α) (k : Int) :
    sliceTo xs k = xs.take (relIndex xs.length k) := by
  simp [sliceTo, relIndex]

theorem sliceTo_length {α : Type} (xs : List α) (k : Int) :
    (sliceTo xs k).length = relIndex xs.length k := by
  rw [sliceTo_eq_take, List.length_take]
  exact Nat.min_eq_left (relIndex_le _ _)

theorem sliceTo_append_sliceFrom {α : Type} (xs : List α) (k : Int) :
    sliceTo xs k ++ sliceFrom xs k = xs := by
  rw [sliceTo_eq_take, sliceFrom, List.take_append_drop]

theorem renumberFrom_length (start : Nat) (l : List Placement) :
    (renumberFrom start l).length = l.length := by
  induction l generalizing start with
  | nil => rfl
  | cons a l ih => simp [renumberFrom, ih]

theorem renumberFrom_append (start : Nat) (l₁ l₂ : List Placement) :
    renumberFrom start (l₁ ++ l₂) =
      renumberFrom start l₁ ++ renumberFrom (start + l₁.length) l₂ := by
  induction l₁ generalizing start with
  | nil => simp [renumberFrom]
  | cons a l ih =>
    have hlen : start + 1 + l.length = start + (l.length + 1) := by omega
    rw [List.cons_append, renumberFrom, renumberFrom, ih, hlen, List.length_cons,
      List.cons_append]

theorem renumberFrom_map_order (start : Nat) (l : List Placement) :
    (renumberFrom start l).map (fun item => item.order) =
      (List.range' (start + 1) l.length).map Int.ofNat := by
  induction l generalizing start with
  | nil => rfl
  | cons a l ih =>
    simp only [renumberFrom, List.map_cons, List.length_cons, List.range'_succ, ih]
    simp

theorem renumberFrom_getElem? (start : Nat) (l : List Placement) (i : Nat) :
    (renumberFrom start l)[i]? =
      l[i]?.map (fun item => { item with order := ((start + i : Nat) : Int) + 1 }) := by
  induction l generalizing start i with
  | nil => simp [renumberFrom]
  | cons a l ih =>
    cases i with
    | zero => simp [renumberFrom]
    | succ j =>
      simp only [renumberFrom, List.getElem?_cons_succ, ih]
      congr 1
      funext item
      congr 2
      omega

theorem mem_renumberFrom (start : Nat) (l : List Placement) (x : Placement)
    (h : x ∈ renumberFrom start l) : ∃ y ∈ l, ∃ o : Int, x = { y with order := o } := by
  induction l generalizing start with
  | nil => simp [renumberFrom] at h
  | cons a l ih =>
    simp only [renumberFrom, List.mem_cons] at h
    rcases h with h | h
    · exact ⟨a, by simp, _, h⟩
    · obtain ⟨y, hy, o, ho⟩ := ih _ h
      exact ⟨y, by simp [hy], o, ho⟩

theorem renumberFrom_order_lt (start : Nat) (l : List Placement) (x : Placement)
    (h : x ∈ renumberFrom start l) : (start : Int) < x.order := by
  induction l generalizing start with
  | nil => simp [renumberFrom] at h
  | cons a l ih =>
    simp only [renumberFrom, List.mem_cons] at h
    rcases h with h | h
    · subst h
      simp
    · have := ih _ h
      push_cast at this
      omega

theorem renumberFrom_sorted (start : Nat) (l : List Placement) :
    (renumberFrom start l).Sorted orderLe := by
  induction l generalizing start with
  | nil => simp [renumberFrom]
  | cons a l ih =>
    simp only [renumberFrom, List.sorted_cons]
    refine ⟨fun b hb => ?_, ih _⟩
    have := renumberFrom_order_lt _ _ _ hb
    simp only [orderLe]
    push_cast at this
    omega

theorem filter_renumberFrom_of_all (q : Placement → Bool)
    (hq : ∀ (x : Placement) (o : Int), q { x with order := o } = q x)
    (start : Nat) (l : List Placement) (h : ∀ x ∈ l, q x = true) :
    (renumberFrom start l).filter q = renumberFrom start l := by
  rw [List.filter_eq_self]
  intro x hx
  obtain ⟨y, hy, o, rfl⟩ := mem_renumberFrom _ _ _ hx
  rw [hq]
  exact h y hy

theorem filter_renumberFrom_of_none (q : Placement → Bool)
    (hq : ∀ (x : Placement) (o : Int), q { x with order := o } = q x)
    (start : Nat) (l : List Placement) (h : ∀ x ∈ l, q x = false) :
    (renumberFrom start l).filter q = [] := by
  rw [List.filter_eq_nil_iff]
  intro x hx
  obtain ⟨y, hy, o, rfl⟩ := mem_renumberFrom _ _ _ hx
  rw [hq]
  simp [h y hy]

/-! ## Lemmas on `moveItem` -/

theorem inDestination_eq_inGroup (destination : Destination) :
    inDestination destination = inGroup destination.destColumn destination.destSection := rfl

theorem inGroup_with_order (column sect : String) (x : Placement) (o : Int) :
    inGroup column sect { x with order := o } = inGroup column sect x := rfl

theorem not_inGroup_with_order (column sect : String) (x : Placement) (o : Int) :
    (!inGroup column sect { x with order := o }) = !inGroup column sect x := rfl

theorem isSource_inGroup (source : Source) (x : Placement) (h : isSource source x = true) :
    inGroup source.sourceColumn source.sourceSection x = true := by
  simp only [isSource, Bool.and_eq_true] at h
  simp only [inGroup, Bool.and_eq_true]
  exact h.1

theorem finalOrdering_eq_none_iff (ordering : List Placement) (source : Source)
    (destination : Destination) :
    finalOrdering ordering source destination = none ↔
      ∀ x ∈ ordering, isSource source x = false := by
  rw [← findIndex_eq_none_iff]
  unfold finalOrdering
  cases hfi : findIndex (isSource source) ordering with
  | none => simp
  | some i =>
    obtain ⟨x, hx, -⟩ := findIndex_eq_some _ _ _ hfi
    simp [hx]

theorem finalOrdering_of_findIndex (ordering : List Placement) (source : Source)
    (destination : Destination) (itemIndex : Nat) (movedItem : Placement)
    (hfind : findIndex (isSource source) ordering = some itemIndex)
    (hitem : ordering[itemIndex]? = some movedItem) :
    finalOrdering ordering source destination =
      some ((ordering.eraseIdx itemIndex).filter (fun item => !inDestination destination item) ++
        reorderedDestinationGroup
          ((ordering.eraseIdx itemIndex).filter (inDestination destination)) movedItem
          destination.destIndex) := by
  simp [finalOrdering, hfind, hitem]

theorem finalOrdering_eq_some (ordering : List Placement) (source : Source)
    (destination : Destination) (final : List Placement)
    (h : finalOrdering ordering source destination = some final) :
    ∃ itemIndex movedItem, findIndex (isSource source) ordering = some itemIndex ∧
      ordering[itemIndex]? = some movedItem ∧ isSource source movedItem = true ∧
      final = (ordering.eraseIdx itemIndex).filter (fun item => !inDestination destination item) ++
        reorderedDestinationGroup
          ((ordering.eraseIdx itemIndex).filter (inDestination destination)) movedItem
          destination.destIndex := by
  cases hfi : findIndex (isSource source) ordering with
  | none => simp [finalOrdering, hfi] at h
  | some i =>
    obtain ⟨x, hx, hpx⟩ := findIndex_eq_some _ _ _ hfi
    rw [finalOrdering_of_findIndex _ _ _ _ _ hfi hx] at h
    exact ⟨i, x, rfl, hx, hpx, (Option.some.inj h).symm⟩

/-- The sequence that `reorderedDestinationGroup` renumbers, split at the
normalised index. -/
theorem reorderedDestinationGroup_eq (group : List Placement) (movedItem : Placement)
    (destIndex : Int) :
    reorderedDestinationGroup group movedItem destIndex =
      renumberFrom 0 (group.take (relIndex group.length destIndex)) ++
        { movedItem with order := (relIndex group.length destIndex : Int) + 1 } ::
          renumberFrom (relIndex group.length destIndex + 1)
            (group.drop (relIndex group.length destIndex)) := by
  have hlen : (group.take (relIndex group.length destIndex)).length =
      relIndex group.length destIndex := by
    rw [List.length_take]
    exact Nat.min_eq_left (relIndex_le _ _)
  rw [reorderedDestinationGroup, sliceTo_eq_take, sliceFrom, List.append_assoc,
    renumberFrom_append, List.singleton_append, renumberFrom, hlen, Nat.zero_add]

theorem reorderedDestinationGroup_length (group : List Placement) (movedItem : Placement)
    (destIndex : Int) :
    (reorderedDestinationGroup group movedItem destIndex).length = group.length + 1 := by
  rw [reorderedDestinationGroup, renumberFrom_length, List.length_append, List.length_append,
    List.length_singleton, Nat.add_right_comm, ← List.length_append, sliceTo_append_sliceFrom]

/-- When the moved item belongs to the destination group, the destination
group of the result is the whole renumbered sequence. -/
theorem filter_final_of_inGroup (column sect : String) (rest : List Placement)
    (movedItem : Placement) (destIndex : Int)
    (hm : inGroup column sect movedItem = true) :
    (rest.filter (fun item => !inGroup column sect item) ++
        reorderedDestinationGroup (rest.filter (inGroup column sect)) movedItem destIndex).filter
      (inGroup column sect) =
      reorderedDestinationGroup (rest.filter (inGroup column sect)) movedItem destIndex := by
  rw [List.filter_append, List.filter_filter]
  have h1 : rest.filter (fun a => inGroup column sect a && !inGroup column sect a) = [] := by
    rw [List.filter_eq_nil_iff]
    intro a _
    simp
  rw [h1, List.nil_append, reorderedDestinationGroup]
  apply filter_renumberFrom_of_all _ (inGroup_with_order column sect)
  intro x hx
  simp only [List.mem_append, List.mem_singleton] at hx
  rcases hx with (hx | hx) | hx
  · rw [sliceTo_eq_take] at hx
    exact (List.mem_filter.mp (List.mem_of_mem_take hx)).2
  · rw [hx]; exact hm
  · exact (List.mem_filter.mp (List.mem_of_mem_drop hx)).2

theorem getItems_of_sorted (list : List Placement) (column sect : String)
    (h : (list.filter (inGroup column sect)).Sorted orderLe) :
    getItems (some list) column sect = list.filter (inGroup column sect) := by
  simp only [getItems]
  exact List.Sorted.insertionSort_eq h

/-- Same-group move: the displayed destination group of the result is the
renumbered sequence itself. -/
theorem getItems_final_same_group (column sect : String) (rest : List Placement)
    (movedItem : Placement) (destIndex : Int)
    (hm : inGroup column sect movedItem = true) :
    getItems (some (rest.filter (fun item => !inGroup column sect item) ++
        reorderedDestinationGroup (rest.filter (inGroup column sect)) movedItem destIndex))
      column sect =
      reorderedDestinationGroup (rest.filter (inGroup column sect)) movedItem destIndex := by
  rw [getItems_of_sorted, filter_final_of_inGroup _ _ _ _ _ hm]
  rw [filter_final_of_inGroup _ _ _ _ _ hm]
  exact renumberFrom_sorted _ _

theorem reorderedDestinationGroup_getElem? (group : List Placement) (movedItem : Placement)
    (destIndex : Int) :
    (reorderedDestinationGroup group movedItem destIndex)[relIndex group.length destIndex]? =
      some { movedItem with order := (relIndex group.length destIndex : Int) + 1 } := by
  have hlen : (renumberFrom 0 (group.take (relIndex group.length destIndex))).length =
      relIndex group.length destIndex := by
    rw [renumberFrom_length, List.length_take]
    exact Nat.min_eq_left (relIndex_le _ _)
  rw [reorderedDestinationGroup_eq, List.getElem?_append_right (Nat.le_of_eq hlen), hlen,
    Nat.sub_self, List.getElem?_cons_zero]

theorem isSource_inDestination_iff (source : Source) (destination : Destination)
    (x : Placement) (h : isSource source x = true) :
    inDestination destination x = true ↔
      (source.sourceColumn = destination.destColumn ∧
        source.sourceSection = destination.destSection) := by
  simp only [isSource, Bool.and_eq_true, beq_iff_eq] at h
  simp only [inDestination, Bool.and_eq_true, beq_iff_eq]
  rw [h.1.1, h.1.2]

theorem filter_not_reorderedDestinationGroup (column sect : String) (rest : List Placement)
    (movedItem : Placement) (destIndex : Int) :
    (reorderedDestinationGroup (rest.filter (inGroup column sect)) movedItem destIndex).filter
      (fun item => !inGroup column sect item) =
      if inGroup column sect movedItem = true then []
      else [{ movedItem with
        order := (relIndex (rest.filter (inGroup column sect)).length destIndex : Int) + 1 }] := by
  have hnone : ∀ (start : Nat) (l : List Placement),
      (∀ x ∈ l, x ∈ rest.filter (inGroup column sect)) →
      (renumberFrom start l).filter (fun item => !inGroup column sect item) = [] := by
    intro start l hl
    apply filter_renumberFrom_of_none _ (not_inGroup_with_order column sect)
    intro x hx
    simp [(List.mem_filter.mp (hl x hx)).2]
  rw [reorderedDestinationGroup_eq, List.filter_append,
    hnone _ _ (fun x hx => List.mem_of_mem_take hx), List.nil_append, List.filter_cons,
    hnone _ _ (fun x hx => List.mem_of_mem_drop hx), not_inGroup_with_order]
  by_cases hm : inGroup column sect movedItem = true <;> simp [hm]

/-! ## Claims on `moveItem` -/

/-- C1, as stated, fails for a move between two groups: dragging `c1` from
(columnOne, sectionOne) to position 0 of (columnTwo, sectionOne) succeeds,
but the moved entry keeps its column and section, so position 0 of the
destination group of the result holds `p1`, not the moved entry, and the
moved entry is not in that group at all. -/
theorem moveItem_cross_group_not_in_destination :
    finalOrdering crossGroupList ⟨"columnOne", "sectionOne", "c1"⟩ ⟨"columnTwo", "sectionOne", 0⟩ =
      some [{ column := "columnOne", «section» := "sectionOne", sectionType := none,
              type := "Collections", id := "c1", order := 1 },
            { column := "columnTwo", «section» := "sectionOne", sectionType := none,
              type := "Products", id := "p1", order := 2 }] ∧
    getItems (finalOrdering crossGroupList ⟨"columnOne", "sectionOne", "c1"⟩
        ⟨"columnTwo", "sectionOne", 0⟩) "columnTwo" "sectionOne" =
      [{ column := "columnTwo", «section» := "sectionOne", sectionType := none,
         type := "Products", id := "p1", order := 2 }] := by
  decide

/-- C1 (amended to moves inside one group): when the first entry matching
`source` is `movedItem`, the destination names the source's own group and
`0 ≤ destIndex ≤` size of that group without the moved item, `moveItem`
succeeds, the moved item with `order = destIndex + 1` is the element at
0-based position `destIndex` of `getItems` of the result for that group,
and that group has one element more than the group without the moved item
(so `destIndex = 0` is first with order 1 and `destIndex = size` is last
with order N). -/
theorem moveItem_places_item_same_group (ordering : List Placement) (source : Source)
    (destination : Destination) (itemIndex : Nat) (movedItem : Placement)
    (hfind : findIndex (isSource source) ordering = some itemIndex)
    (hitem : ordering[itemIndex]? = some movedItem)
    (hsame : source.sourceColumn = destination.destColumn ∧
      source.sourceSection = destination.destSection)
    (hlo : 0 ≤ destination.destIndex)
    (hhi : destination.destIndex ≤
      (((ordering.eraseIdx itemIndex).filter (inDestination destination)).length : Int)) :
    ∃ final, finalOrdering ordering source destination = some final ∧
      (getItems (some final) destination.destColumn destination.destSection)[
          destination.destIndex.toNat]? =
        some { movedItem with order := destination.destIndex + 1 } ∧
      (getItems (some final) destination.destColumn destination.destSection).length =
        ((ordering.eraseIdx itemIndex).filter (inDestination destination)).length + 1 := by
  obtain ⟨x, hx, hsrc⟩ := findIndex_eq_some _ _ _ hfind
  rw [hitem] at hx
  cases hx
  have hm : inGroup destination.destColumn destination.destSection movedItem = true :=
    (isSource_inDestination_iff source destination movedItem hsrc).mpr hsame
  refine ⟨_, finalOrdering_of_findIndex _ _ _ _ _ hfind hitem, ?_, ?_⟩
  · rw [inDestination_eq_inGroup, getItems_final_same_group _ _ _ _ _ hm]
    have hrel := relIndex_of_mem _ _ hlo hhi
    rw [inDestination_eq_inGroup] at hrel
    rw [← hrel, reorderedDestinationGroup_getElem?, hrel, Int.toNat_of_nonneg hlo]
  · rw [inDestination_eq_inGroup, getItems_final_same_group _ _ _ _ _ hm,
      reorderedDestinationGroup_length]

/-- The scenario of the specification as an instance of C1: moving `p1` to
position 1 of its own group puts it second with order 2. -/
theorem moveItem_places_item_same_group_witness :
    ∃ final, finalOrdering scenarioList ⟨"columnTwo", "sectionOne", "p1"⟩
        ⟨"columnTwo", "sectionOne", 1⟩ = some final ∧
      (getItems (some final) "columnTwo" "sectionOne")[(1 : Int).toNat]? =
        some { column := "columnTwo", «section» := "sectionOne", sectionType := none,
               type := "Products", id := "p1", order := 1 + 1 } ∧
      (getItems (some final) "columnTwo" "sectionOne").length =
        ((scenarioList.eraseIdx 0).filter
          (inDestination ⟨"columnTwo", "sectionOne", 1⟩)).length + 1 :=
  moveItem_places_item_same_group scenarioList ⟨"columnTwo", "sectionOne", "p1"⟩
    ⟨"columnTwo", "sectionOne", 1⟩ 0
    { column := "columnTwo", «section» := "sectionOne", sectionType := none,
      type := "Products", id := "p1", order := 1 }
    (by decide) (by decide) (by decide) (by decide) (by decide)

/-- C2 at a failing input: dragging `c1` from (columnOne, sectionOne) to
position 0 of (columnTwo, sectionOne), which holds `p1`, succeeds. The
renumbering of line 71 runs over `c1, p1` and gives them the orders 1, 2,
but `c1` keeps its column and section, so the destination group of the
result is the single entry `p1` with order 2: its order values are `[2]`,
not `1..N = [1]`. -/
theorem moveItem_cross_group_destination_gap :
    finalOrdering crossGroupList ⟨"columnOne", "sectionOne", "c1"⟩
        ⟨"columnTwo", "sectionOne", 0⟩ =
      some [{ column := "columnOne", «section» := "sectionOne", sectionType := none,
              type := "Collections", id := "c1", order := 1 },
            { column := "columnTwo", «section» := "sectionOne", sectionType := none,
              type := "Products", id := "p1", order := 2 }] ∧
    (getItems (finalOrdering crossGroupList ⟨"columnOne", "sectionOne", "c1"⟩
        ⟨"columnTwo", "sectionOne", 0⟩) "columnTwo" "sectionOne").length = 1 ∧
    (finalOrdering crossGroupList ⟨"columnOne", "sectionOne", "c1"⟩
        ⟨"columnTwo", "sectionOne", 0⟩).map
      (fun final => groupOrders final "columnTwo" "sectionOne") = some [2] ∧
    oneTo 1 = [1] := by
  decide

/-- Inside one group the renumbering is complete: for every ordering list,
whatever order values it holds, and every successful `moveItem` whose
destination names the source's own group, the order values of
`getItems` of the result for that group are exactly `1, 2, …, N`, `N` the
number of entries of the group. -/
theorem moveItem_destination_orders_same_group (ordering : List Placement) (source : Source)
    (destination : Destination) (final : List Placement)
    (hsame : source.sourceColumn = destination.destColumn ∧
      source.sourceSection = destination.destSection)
    (h : finalOrdering ordering source destination = some final) :
    groupOrders final destination.destColumn destination.destSection =
      oneTo (getItems (some final) destination.destColumn destination.destSection).length := by
  obtain ⟨i, m, -, -, hsrc, rfl⟩ := finalOrdering_eq_some _ _ _ _ h
  have hm : inGroup destination.destColumn destination.destSection m = true :=
    (isSource_inDestination_iff source destination m hsrc).mpr hsame
  rw [groupOrders, inDestination_eq_inGroup, getItems_final_same_group _ _ _ _ _ hm]
  rw [reorderedDestinationGroup, renumberFrom_map_order, renumberFrom_length]
  rfl

/-- The renumbering inside one group on a list whose order values are not
contiguous. -/
theorem moveItem_destination_orders_same_group_witness :
    groupOrders
        [{ column := "columnTwo", «section» := "sectionOne", sectionType := none,
           type := "Products", id := "p2", order := 1 },
         { column := "columnTwo", «section» := "sectionOne", sectionType := none,
           type := "Products", id := "p1", order := 2 }]
        "columnTwo" "sectionOne" =
      oneTo (getItems
        (some [{ column := "columnTwo", «section» := "sectionOne", sectionType := none,
                 type := "Products", id := "p2", order := 1 },
               { column := "columnTwo", «section» := "sectionOne", sectionType := none,
                 type := "Products", id := "p1", order := 2 }])
        "columnTwo" "sectionOne").length :=
  moveItem_destination_orders_same_group
    [{ column := "columnTwo", «section» := "sectionOne", sectionType := none,
       type := "Products", id := "p1", order := 7 },
     { column := "columnTwo", «section» := "sectionOne", sectionType := none,
       type := "Products", id := "p2", order := 7 }]
    ⟨"columnTwo", "sectionOne", "p1"⟩ ⟨"columnTwo", "sectionOne", 5⟩ _
    (by decide) (by decide)

/-- C3, as stated, fails for a move between two groups: after dragging `c1`,
the only entry of the list, from (columnOne, sectionOne) to (columnTwo,
sectionOne), the entries of the result outside the destination group are
not the input's entries outside it with the moved one taken away (there are
none): the moved entry, whose column and section are not rewritten, is
still there, a member of its old group. -/
theorem moveItem_cross_group_moved_entry_stays :
    (finalOrdering
        [{ column := "columnOne", «section» := "sectionOne", sectionType := none,
           type := "Collections", id := "c1", order := 1 }]
        ⟨"columnOne", "sectionOne", "c1"⟩ ⟨"columnTwo", "sectionOne", 0⟩).map
      (fun final => final.filter (fun item => !inGroup "columnTwo" "sectionOne" item)) =
      some [{ column := "columnOne", «section» := "sectionOne", sectionType := none,
              type := "Collections", id := "c1", order := 1 }] ∧
    (([{ column := "columnOne", «section» := "sectionOne", sectionType := none,
         type := "Collections", id := "c1", order := 1 }] : List Placement).eraseIdx 0).filter
      (fun item => !inGroup "columnTwo" "sectionOne" item) = [] := by
  decide

/-- C3 (amended): for every ordering list and every successful `moveItem`
that takes out the entry `movedItem` at position `itemIndex`, the entries
of the result that do not belong to (destColumn, destSection) begin with
the entries of the input, the moved one taken away, that do not belong to
it, with all fields including `order` identical and in the same relative
order. When the destination is the source's own group there is nothing
else; when it is another group there is one more entry, the moved one, with
its column, section, sectionType, type and id as they were, so that it is
still a member of its old group. Nothing is said of the order of the moved
entry. -/
theorem moveItem_non_destination_entries (ordering : List Placement) (source : Source)
    (destination : Destination) (itemIndex : Nat) (movedItem : Placement)
    (hfind : findIndex (isSource source) ordering = some itemIndex)
    (hitem : ordering[itemIndex]? = some movedItem) :
    ∃ final, finalOrdering ordering source destination = some final ∧
      ∃ others : List Placement,
        final.filter (fun item => !inDestination destination item) =
          (ordering.eraseIdx itemIndex).filter
            (fun item => !inDestination destination item) ++ others ∧
        ((source.sourceColumn = destination.destColumn ∧
            source.sourceSection = destination.destSection) → others = []) ∧
        (¬ (source.sourceColumn = destination.destColumn ∧
            source.sourceSection = destination.destSection) →
          ∃ moved, others = [moved] ∧ withoutOrder moved = withoutOrder movedItem ∧
            inGroup source.sourceColumn source.sourceSection moved = true) := by
  obtain ⟨x, hx, hsrc⟩ := findIndex_eq_some _ _ _ hfind
  rw [hitem] at hx
  cases hx
  have hiff := isSource_inDestination_iff source destination movedItem hsrc
  rw [inDestination_eq_inGroup] at hiff
  have hfirst : ((ordering.eraseIdx itemIndex).filter
      (fun item => !inGroup destination.destColumn destination.destSection item)).filter
      (fun item => !inGroup destination.destColumn destination.destSection item) =
      (ordering.eraseIdx itemIndex).filter
        (fun item => !inGroup destination.destColumn destination.destSection item) := by
    rw [List.filter_filter]
    apply List.filter_congr
    intro a _
    simp
  refine ⟨_, finalOrdering_of_findIndex _ _ _ _ _ hfind hitem,
    (reorderedDestinationGroup
      ((ordering.eraseIdx itemIndex).filter
        (inGroup destination.destColumn destination.destSection)) movedItem
      destination.destIndex).filter
      (fun item => !inGroup destination.destColumn destination.destSection item), ?_, ?_, ?_⟩
  · rw [inDestination_eq_inGroup, List.filter_append, hfirst]
  · intro hsame
    rw [filter_not_reorderedDestinationGroup, if_pos (hiff.mpr hsame)]
  · intro hdiff
    rw [filter_not_reorderedDestinationGroup, if_neg (fun hm => hdiff (hiff.mp hm))]
    exact ⟨_, rfl, rfl, isSource_inGroup source movedItem hsrc⟩

/-- An instance of C3 on the two-group list: `c1` is dragged onto the end of
the other group, and the one entry of the result outside the destination
group is `c1` with its column and section. -/
theorem moveItem_non_destination_entries_witness :
    ∃ final, finalOrdering crossGroupList ⟨"columnOne", "sectionOne", "c1"⟩
        ⟨"columnTwo", "sectionOne", 1⟩ = some final ∧
      ∃ moved, final.filter (fun item => !inDestination ⟨"columnTwo", "sectionOne", 1⟩ item) =
          [moved] ∧
        withoutOrder moved =
          withoutOrder { column := "columnOne", «section» := "sectionOne", sectionType := none,
                         type := "Collections", id := "c1", order := 1 } := by
  obtain ⟨final, hfinal, others, hfilter, -, hdiff⟩ :=
    moveItem_non_destination_entries crossGroupList ⟨"columnOne", "sectionOne", "c1"⟩
      ⟨"columnTwo", "sectionOne", 1⟩ 0
      { column := "columnOne", «section» := "sectionOne", sectionType := none,
        type := "Collections", id := "c1", order := 1 }
      (by decide) (by decide)
  obtain ⟨moved, hothers, hsame, -⟩ := hdiff (by decide)
  refine ⟨final, hfinal, moved, ?_, hsame⟩
  rw [hfilter, hothers]
  rfl

/-- C4: `moveItem` takes the NotFound exit exactly when no entry of the
stored list has the source's column, section and id; then the form is left
as it is (same stored list, no `setValue` logged). Otherwise a list is
computed and written: it becomes the stored list and is the one value added
to the log. -/
theorem moveItem_notFound_iff (form : Form) (source : Source) (destination : Destination) :
    (finalOrdering form.ordering source destination = none ↔
      ∀ item ∈ form.ordering, ¬ (item.column = source.sourceColumn ∧
        item.«section» = source.sourceSection ∧ item.id = source.sourceId)) ∧
    (finalOrdering form.ordering source destination = none →
      moveItem form source destination = form) ∧
    ((∃ item ∈ form.ordering, item.column = source.sourceColumn ∧
        item.«section» = source.sourceSection ∧ item.id = source.sourceId) →
      ∃ final, finalOrdering form.ordering source destination = some final ∧
        (moveItem form source destination).ordering = final ∧
        (moveItem form source destination).writes = form.writes ++ [final]) := by
  have hiff : finalOrdering form.ordering source destination = none ↔
      ∀ item ∈ form.ordering, ¬ (item.column = source.sourceColumn ∧
        item.«section» = source.sourceSection ∧ item.id = source.sourceId) := by
    rw [finalOrdering_eq_none_iff]
    refine forall₂_congr (fun item _ => ?_)
    simp [isSource, and_assoc]
  refine ⟨hiff, ?_, ?_⟩
  · intro h
    simp [moveItem, h]
  · intro hex
    cases hfo : finalOrdering form.ordering source destination with
    | none =>
      obtain ⟨item, hmem, hitem⟩ := hex
      exact absurd hitem (hiff.mp hfo item hmem)
    | some final =>
      exact ⟨final, rfl, by simp [moveItem, hfo, setValue], by simp [moveItem, hfo, setValue]⟩

/-- The NotFound scenario of the specification as an instance of C4: moving
the id `missing` leaves the form as it is, and moving `p1` writes once. -/
theorem moveItem_notFound_iff_witness :
    moveItem ⟨scenarioList, []⟩ ⟨"columnTwo", "sectionOne", "missing"⟩
        ⟨"columnTwo", "sectionOne", 0⟩ = ⟨scenarioList, []⟩ ∧
    ∃ final, finalOrdering scenarioList ⟨"columnTwo", "sectionOne", "p1"⟩
        ⟨"columnTwo", "sectionOne", 1⟩ = some final ∧
      (moveItem ⟨scenarioList, []⟩ ⟨"columnTwo", "sectionOne", "p1"⟩
        ⟨"columnTwo", "sectionOne", 1⟩).ordering = final ∧
      (moveItem ⟨scenarioList, []⟩ ⟨"columnTwo", "sectionOne", "p1"⟩
        ⟨"columnTwo", "sectionOne", 1⟩).writes = [] ++ [final] :=
  ⟨(moveItem_notFound_iff ⟨scenarioList, []⟩ ⟨"columnTwo", "sectionOne", "missing"⟩
      ⟨"columnTwo", "sectionOne", 0⟩).2.1 (by decide),
   (moveItem_notFound_iff ⟨scenarioList, []⟩ ⟨"columnTwo", "sectionOne", "p1"⟩
      ⟨"columnTwo", "sectionOne", 1⟩).2.2
      ⟨{ column := "columnTwo", «section» := "sectionOne", sectionType := none,
         type := "Products", id := "p1", order := 1 }, by decide, by decide⟩⟩

theorem getItems_congr (list list' : List Placement) (column sect : String)
    (h : list'.filter (inGroup column sect) = list.filter (inGroup column sect)) :
    getItems (some list') column sect = getItems (some list) column sect := by
  simp only [getItems, h]

theorem getItems_eq_nil (list : List Placement) (column sect : String)
    (h : list.filter (inGroup column sect) = []) : getItems (some list) column sect = [] := by
  simp only [getItems, h, List.insertionSort]

/-- The invariant only has to be checked on the groups of the entries of
the list: every other group is empty. -/
theorem groupInvariant_of_check (list : List Placement)
    (h : ∀ entry ∈ list, groupOrders list entry.column entry.«section» =
      oneTo (getItems (some list) entry.column entry.«section»).length) :
    GroupInvariant list := by
  intro column sect
  cases hfil : list.filter (inGroup column sect) with
  | nil =>
    rw [groupOrders, getItems_eq_nil _ _ _ hfil]
    rfl
  | cons a rest =>
    have ha : a ∈ list.filter (inGroup column sect) := by
      rw [hfil]
      exact List.mem_cons_self _ _
    obtain ⟨hmem, hgrp⟩ := List.mem_filter.mp ha
    simp only [inGroup, Bool.and_eq_true, beq_iff_eq] at hgrp
    have := h a hmem
    rwa [hgrp.1, hgrp.2] at this

/-! ## Claims on the same-group reorder, the toggle and the accessors -/

/-- C5 at a failing input: the group `p1, p2, p3` (orders 1, 2, 3) is stored
in the flat list as `p2, p3, p1`, which satisfies the group invariant and is
what dragging `p1` onto the empty section (columnOne, sectionOne) leaves
behind. Moving `p3` to position 0 of its own group should display
`p3, p1, p2`; `moveItem` slices the stored sequence instead of the
displayed one and the result displays `p3, p2, p1`. -/
theorem moveItem_same_group_unsorted_storage :
    finalOrdering sortedGroupList ⟨"columnTwo", "sectionOne", "p1"⟩
      ⟨"columnOne", "sectionOne", 0⟩ = some unsortedGroupList ∧
    GroupInvariant unsortedGroupList ∧
    (getItems (some unsortedGroupList) "columnTwo" "sectionOne").map
      (fun item => (item.id, item.order)) = [("p1", 1), ("p2", 2), ("p3", 3)] ∧
    ((getItems (finalOrdering unsortedGroupList ⟨"columnTwo", "sectionOne", "p3"⟩
        ⟨"columnTwo", "sectionOne", 0⟩) "columnTwo" "sectionOne").map
      (fun item => (item.id, item.order)) = [("p3", 1), ("p2", 2), ("p1", 3)]) ∧
    ((sameGroupReorderSpec unsortedGroupList ⟨"columnTwo", "sectionOne", "p3"⟩ 0).map
      (fun group => group.map (fun item => (item.id, item.order))) =
        some [("p3", 1), ("p1", 2), ("p2", 3)]) := by
  refine ⟨by decide, groupInvariant_of_check _ (by decide), by decide, by decide, by decide⟩

theorem suggestedTermsFrom_type (start : Nat) (terms : List DataItem) :
    ∀ entry ∈ suggestedTermsFrom start terms,
      entry.type = "suggestedTerms" ∧ entry.column = "columnTwo" ∧
        entry.«section» = "suggestedTerms" := by
  induction terms generalizing start with
  | nil => simp [suggestedTermsFrom]
  | cons a l ih =>
    intro entry h
    simp only [suggestedTermsFrom, List.mem_cons] at h
    rcases h with h | h
    · subst h
      exact ⟨rfl, rfl, rfl⟩
    · exact ih _ entry h

theorem bulkRemoveByType_bulkAppend (list : List Placement) (items : List DataItem) :
    bulkRemoveByType (bulkAppend list items) = bulkRemoveByType list := by
  have hnew : (suggestedTermsFrom 0 items).filter (fun entry => entry.type != "suggestedTerms") =
      [] := by
    rw [List.filter_eq_nil_iff]
    intro a ha
    simp [(suggestedTermsFrom_type 0 items a ha).1]
  rw [bulkRemoveByType, bulkAppend, List.filter_append, hnew, List.append_nil, bulkRemoveByType]

/-- C7, as stated, fails on a list that already holds a suggested term:
switching the toggle on (with no terms to add) and off again leaves the
empty list, not the original one. -/
theorem toggle_round_trip_loses_existing_terms :
    bulkRemoveByType (bulkAppend
      [{ column := "columnTwo", «section» := "suggestedTerms", sectionType := some "suggestedTerms",
         type := "suggestedTerms", id := "t1", order := 1 }] []) = [] := by
  decide

/-- C7 (amended): switching the toggle on and then off gives the original
list without its entries of type suggestedTerms, all other entries with the
same fields and in the same relative order; it gives back the original list
exactly when that list holds no entry of type suggestedTerms. -/
theorem toggle_round_trip (form : Form) (items : List DataItem) :
    (onChange false items (onChange true items form)).ordering =
      bulkRemoveByType (bulkAppend form.ordering items) ∧
    bulkRemoveByType (bulkAppend form.ordering items) =
      form.ordering.filter (fun entry => decide (entry.type ≠ "suggestedTerms")) ∧
    (bulkRemoveByType (bulkAppend form.ordering items) = form.ordering ↔
      ∀ entry ∈ form.ordering, entry.type ≠ "suggestedTerms") := by
  refine ⟨by simp [onChange, setValue], ?_, ?_⟩
  · rw [bulkRemoveByType_bulkAppend, bulkRemoveByType]
    apply List.filter_congr
    intro a _
    rw [Bool.eq_iff_iff]
    simp
  · rw [bulkRemoveByType_bulkAppend, bulkRemoveByType, List.filter_eq_self]
    simp

/-- C8: `getItems` returns a permutation of the entries of the list whose
column and section equal the arguments, sorted in ascending order of
`order`; it returns the empty sequence for an absent and for an empty list. -/
theorem getItems_filter_sorted (ordering : Option (List Placement)) (column sect : String) :
    (getItems ordering column sect).Perm
      ((ordering.getD []).filter
        (fun item => decide (item.column = column ∧ item.«section» = sect))) ∧
    (getItems ordering column sect).Sorted (fun a b => a.order ≤ b.order) ∧
    getItems none column sect = [] ∧ getItems (some []) column sect = [] := by
  have hfilter : ∀ list : List Placement, list.filter (inGroup column sect) =
      list.filter (fun item => decide (item.column = column ∧ item.«section» = sect)) := by
    intro list
    apply List.filter_congr
    intro a _
    rw [Bool.eq_iff_iff]
    simp [inGroup]
  refine ⟨?_, ?_, rfl, rfl⟩
  · cases ordering with
    | none => simp [getItems]
    | some list =>
      simp only [getItems, Option.getD_some]
      rw [← hfilter]
      exact List.perm_insertionSort orderLe _
  · cases ordering with
    | none => simp [getItems]
    | some list => exact List.sorted_insertionSort orderLe _

/-- C10: the list written when the toggle is switched off holds no entry of
type suggestedTerms; it is a sublist of the stored list (entries unchanged,
in their original relative order) and holds every entry of another type as
many times as the stored list does. -/
theorem bulkRemoveByType_keeps_other_types (form : Form) (terms : List DataItem) :
    (onChange false terms form).ordering = bulkRemoveByType form.ordering ∧
    (∀ entry ∈ bulkRemoveByType form.ordering, entry.type ≠ "suggestedTerms") ∧
    (bulkRemoveByType form.ordering).Sublist form.ordering ∧
    (∀ entry : Placement, entry.type ≠ "suggestedTerms" →
      (bulkRemoveByType form.ordering).count entry = form.ordering.count entry) := by
  refine ⟨by simp [onChange, setValue], ?_, List.filter_sublist _, ?_⟩
  · intro entry h
    simpa using (List.mem_filter.mp h).2
  · intro entry h
    exact List.count_filter (by simpa using h)

/-- An instance of C10: the one suggested term goes, the product stays with
its order 2. -/
theorem bulkRemoveByType_keeps_other_types_witness :
    (bulkRemoveByType
      [{ column := "columnTwo", «section» := "suggestedTerms", sectionType := some "suggestedTerms",
         type := "suggestedTerms", id := "t1", order := 1 },
       { column := "columnTwo", «section» := "sectionOne", sectionType := none,
         type := "Products", id := "p2", order := 2 }]).count
      { column := "columnTwo", «section» := "sectionOne", sectionType := none,
        type := "Products", id := "p2", order := 2 } =
    ([{ column := "columnTwo", «section» := "suggestedTerms", sectionType := some "suggestedTerms",
        type := "suggestedTerms", id := "t1", order := 1 },
      { column := "columnTwo", «section» := "sectionOne", sectionType := none,
        type := "Products", id := "p2", order := 2 }] : List Placement).count
      { column := "columnTwo", «section» := "sectionOne", sectionType := none,
        type := "Products", id := "p2", order := 2 } :=
  (bulkRemoveByType_keeps_other_types
    ⟨[{ column := "columnTwo", «section» := "suggestedTerms", sectionType := some "suggestedTerms",
        type := "suggestedTerms", id := "t1", order := 1 },
      { column := "columnTwo", «section» := "sectionOne", sectionType := none,
        type := "Products", id := "p2", order := 2 }], []⟩ []).2.2.2
    { column := "columnTwo", «section» := "sectionOne", sectionType := none,
      type := "Products", id := "p2", order := 2 } (by decide)

/-! ## Claim on `getDisplayName` -/

/-- C9, as stated, fails in two ways. A matched collection whose
`displayName` is the empty string gives null, not that label, because of
`matchedItem.displayName || null`. And for the type `constructor`, which is
none of the four, `typeToDatasetMap[type]` is the inherited
`Object.prototype.constructor`, a truthy value without `find`, so the call
`dataset.find(…)` throws instead of returning null. -/
theorem getDisplayName_differs_from_reference :
    (getDisplayName (placementOf "Collections" "c1") emptyLabelSources = .ok none ∧
      resolveDisplayNameSpec (placementOf "Collections" "c1") emptyLabelSources = some "") ∧
    (getDisplayName (placementOf "constructor" "c1") emptyLabelSources =
        .error JsError.typeError ∧
      resolveDisplayNameSpec (placementOf "constructor" "c1") emptyLabelSources = none) :=
  ⟨⟨rfl, rfl⟩, rfl, rfl⟩

theorem getDisplayName_of_own (item : Placement) (dataSources : DataSources)
    (dataset : Option (List DataItem)) (label : DataItem → Option String)
    (hmap : typeToDatasetMap dataSources item.type = .own dataset)
    (hlabel : ∀ matchedItem : DataItem,
      (if item.type = "Collections" then Except.ok (orNull matchedItem.displayName)
       else if item.type = "Products" then
        Except.ok (orNull (matchedItem.fieldData.bind (fun fieldData => fieldData.name)))
       else if item.type = "Pages" then Except.ok (orNull matchedItem.title)
       else if item.type = "suggestedTerms" then Except.ok (orNull matchedItem.term)
       else Except.ok none : Except JsError (Option String)) =
        .ok (orNull (label matchedItem))) :
    getDisplayName item dataSources =
      .ok (orNull (dataset.bind (fun entries =>
        (entries.find? (fun entry => entry._id == item.id)).bind label))) := by
  unfold getDisplayName
  rw [hmap]
  cases dataset with
  | none => rfl
  | some entries =>
    simp only [Option.some_bind]
    cases hfind : entries.find? (fun entry => entry._id == item.id) with
    | none => rfl
    | some entry => exact hlabel entry

theorem resolveDisplayNameSpec_of_own (placement : Placement) (datasets : DataSources)
    (dataset : Option (List DataItem)) (label : DataItem → Option String)
    (hset : (if placement.type = "Collections" then datasets.siteCollections
      else if placement.type = "Products" then datasets.siteProducts
      else if placement.type = "Pages" then datasets.sitePages
      else if placement.type = "suggestedTerms" then datasets.userSuggestedTerms
      else none) = dataset)
    (hlabel : ∀ entry : DataItem,
      (if placement.type = "Collections" then entry.displayName
       else if placement.type = "Products" then
        entry.fieldData.bind (fun fieldData => fieldData.name)
       else if placement.type = "Pages" then entry.title
       else entry.term) = label entry) :
    resolveDisplayNameSpec placement datasets =
      dataset.bind (fun entries =>
        (entries.find? (fun entry => entry._id == placement.id)).bind label) := by
  unfold resolveDisplayNameSpec
  simp only [hset]
  cases dataset with
  | none => rfl
  | some entries =>
    simp only [Option.some_bind]
    cases hfind : entries.find? (fun entry => entry._id == placement.id) with
    | none => rfl
    | some entry => exact hlabel entry

/-- C9 (amended): for every placement whose type is not the name of a
property inherited from `Object.prototype`, `getDisplayName` returns
without failing, and what it returns is the reference of the specification
with an absent or empty label turned into null: null if the type is not one
of the four, the dataset is absent or no entry has the id, otherwise
`label || null` for the type-specific label of the first entry with the id. -/
theorem getDisplayName_eq_reference (item : Placement) (dataSources : DataSources)
    (htype : item.type ∉ objectPrototypeKeys) :
    getDisplayName item dataSources = .ok (orNull (resolveDisplayNameSpec item dataSources)) := by
  by_cases h1 : item.type = "Collections"
  · rw [getDisplayName_of_own item dataSources dataSources.siteCollections
        (fun entry => entry.displayName) (by simp [typeToDatasetMap, h1]) (by simp [h1]),
      resolveDisplayNameSpec_of_own item dataSources dataSources.siteCollections
        (fun entry => entry.displayName) (by simp [h1]) (by simp [h1])]
  · by_cases h2 : item.type = "Products"
    · rw [getDisplayName_of_own item dataSources dataSources.siteProducts
          (fun entry => entry.fieldData.bind (fun fieldData => fieldData.name))
          (by simp [typeToDatasetMap, h2]) (by simp [h2]),
        resolveDisplayNameSpec_of_own item dataSources dataSources.siteProducts
          (fun entry => entry.fieldData.bind (fun fieldData => fieldData.name))
          (by simp [h2]) (by simp [h2])]
    · by_cases h3 : item.type = "Pages"
      · rw [getDisplayName_of_own item dataSources dataSources.sitePages
            (fun entry => entry.title) (by simp [typeToDatasetMap, h3]) (by simp [h3]),
          resolveDisplayNameSpec_of_own item dataSources dataSources.sitePages
            (fun entry => entry.title) (by simp [h3]) (by simp [h3])]
      · by_cases h4 : item.type = "suggestedTerms"
        · rw [getDisplayName_of_own item dataSources dataSources.userSuggestedTerms
              (fun entry => entry.term) (by simp [typeToDatasetMap, h4]) (by simp [h4]),
            resolveDisplayNameSpec_of_own item dataSources dataSources.userSuggestedTerms
              (fun entry => entry.term) (by simp [h4]) (by simp [h4])]
        · rw [resolveDisplayNameSpec_of_own item dataSources none (fun entry => entry.term)
            (by simp [h1, h2, h3, h4]) (by simp [h1, h2, h3])]
          simp [getDisplayName, typeToDatasetMap, h1, h2, h3, h4, htype, orNull]

/-- The scenario of the specification as an instance of C9: type Pages,
id `x`, no page with id `x`, gives null and no failure. -/
theorem getDisplayName_eq_reference_witness :
    getDisplayName (placementOf "Pages" "x") emptyLabelSources =
      .ok (orNull (resolveDisplayNameSpec (placementOf "Pages" "x") emptyLabelSources)) ∧
    orNull (resolveDisplayNameSpec (placementOf "Pages" "x") emptyLabelSources) = none :=
  ⟨getDisplayName_eq_reference _ _ (by decide), rfl⟩

/-! ## The group invariant along sequences of operations -/

theorem groupInvariant_group_congr (list list' : List Placement) (column sect : String)
    (h : list'.filter (inGroup column sect) = list.filter (inGroup column sect))
    (hinv : GroupInvariant list) :
    groupOrders list' column sect = oneTo (getItems (some list') column sect).length := by
  rw [groupOrders, getItems_congr _ _ _ _ h]
  exact hinv column sect

theorem filter_eraseIdx_of_false {α : Type} (p : α → Bool) (l : List α) (i : Nat) (m : α)
    (hitem : l[i]? = some m) (hm : p m = false) : (l.eraseIdx i).filter p = l.filter p := by
  induction l generalizing i with
  | nil => simp
  | cons a l ih =>
    cases i with
    | zero =>
      simp only [List.getElem?_cons_zero, Option.some.injEq] at hitem
      subst hitem
      simp [List.filter_cons, hm]
    | succ j =>
      simp only [List.getElem?_cons_succ] at hitem
      simp only [List.eraseIdx_cons_succ, List.filter_cons, ih j hitem]

theorem inGroup_false_of_ne (column sect column' sect' : String) (x : Placement)
    (hx : inGroup column sect x = true) (hne : ¬ (column' = column ∧ sect' = sect)) :
    inGroup column' sect' x = false := by
  simp only [inGroup, Bool.and_eq_true, beq_iff_eq] at hx
  rw [Bool.eq_false_iff]
  intro h
  simp only [inGroup, Bool.and_eq_true, beq_iff_eq] at h
  exact hne ⟨h.1.symm.trans hx.1, h.2.symm.trans hx.2⟩

/-- A move inside the group (column, sect) does not change the members of
any other group. -/
theorem filter_final_other_group (column sect column' sect' : String)
    (ordering : List Placement) (itemIndex : Nat) (movedItem : Placement) (destIndex : Int)
    (hitem : ordering[itemIndex]? = some movedItem)
    (hm : inGroup column sect movedItem = true)
    (hne : ¬ (column' = column ∧ sect' = sect)) :
    ((ordering.eraseIdx itemIndex).filter (fun item => !inGroup column sect item) ++
        reorderedDestinationGroup ((ordering.eraseIdx itemIndex).filter (inGroup column sect))
          movedItem destIndex).filter (inGroup column' sect') =
      ordering.filter (inGroup column' sect') := by
  have hgroup : (reorderedDestinationGroup
      ((ordering.eraseIdx itemIndex).filter (inGroup column sect)) movedItem destIndex).filter
      (inGroup column' sect') = [] := by
    rw [List.filter_eq_nil_iff]
    intro x hx
    have hx' : x ∈ (reorderedDestinationGroup
        ((ordering.eraseIdx itemIndex).filter (inGroup column sect)) movedItem destIndex).filter
        (inGroup column sect) := by
      rw [← filter_final_of_inGroup column sect _ _ _ hm] at hx
      rw [← filter_final_of_inGroup column sect _ _ _ hm, List.filter_filter]
      rw [List.mem_filter] at hx ⊢
      exact ⟨hx.1, by simp [hx.2]⟩
    simp [inGroup_false_of_ne _ _ _ _ x (List.mem_filter.mp hx').2 hne]
  rw [List.filter_append, hgroup, List.append_nil, List.filter_filter,
    ← filter_eraseIdx_of_false (inGroup column' sect') ordering itemIndex movedItem hitem
      (inGroup_false_of_ne _ _ _ _ movedItem hm hne)]
  apply List.filter_congr
  intro x _
  cases hx : inGroup column' sect' x with
  | false => rfl
  | true =>
    have : inGroup column sect x = false :=
      inGroup_false_of_ne column' sect' column sect x hx (fun h => hne ⟨h.1.symm, h.2.symm⟩)
    simp [this]

theorem mem_final_fields (ordering : List Placement) (source : Source)
    (destination : Destination) (final : List Placement)
    (h : finalOrdering ordering source destination = some final) :
    ∀ x ∈ final, ∃ y ∈ ordering, ∃ o : Int, x = { y with order := o } := by
  obtain ⟨i, m, -, hitem, -, rfl⟩ := finalOrdering_eq_some _ _ _ _ h
  intro x hx
  rw [List.mem_append] at hx
  rcases hx with hx | hx
  · exact ⟨x, List.mem_of_mem_eraseIdx (List.mem_filter.mp hx).1, x.order, rfl⟩
  · obtain ⟨y, hy, o, rfl⟩ := mem_renumberFrom _ _ _ hx
    refine ⟨y, ?_, o, rfl⟩
    simp only [List.mem_append, List.mem_singleton] at hy
    rcases hy with (hy | hy) | hy
    · rw [sliceTo_eq_take] at hy
      exact List.mem_of_mem_eraseIdx (List.mem_filter.mp (List.mem_of_mem_take hy)).1
    · rw [hy]
      exact List.getElem?_mem hitem
    · exact List.mem_of_mem_eraseIdx (List.mem_filter.mp (List.mem_of_mem_drop hy)).1

theorem suggestedTermsFrom_eq_renumberFrom (start : Nat) (terms : List DataItem) :
    suggestedTermsFrom start terms =
      renumberFrom start (terms.map (fun term =>
        { column := "columnTwo", «section» := "suggestedTerms",
          sectionType := some "suggestedTerms", type := "suggestedTerms", id := term._id,
          order := 0 })) := by
  induction terms generalizing start with
  | nil => rfl
  | cons a l ih => simp only [suggestedTermsFrom, List.map_cons, renumberFrom, ih]

theorem moveWithinGroup_preserves (ordering : List Placement) (source : Source)
    (destination : Destination) (final : List Placement)
    (hsame : source.sourceColumn = destination.destColumn ∧
      source.sourceSection = destination.destSection)
    (hmove : finalOrdering ordering source destination = some final)
    (hinv : GroupInvariant ordering) (hseg : TermsSegregated ordering) :
    GroupInvariant final ∧ TermsSegregated final := by
  constructor
  · obtain ⟨i, m, -, hitem, hsrc, rfl⟩ := finalOrdering_eq_some _ _ _ _ hmove
    have hm : inGroup destination.destColumn destination.destSection m = true :=
      (isSource_inDestination_iff source destination m hsrc).mpr hsame
    intro column sect
    by_cases hcs : column = destination.destColumn ∧ sect = destination.destSection
    · rw [hcs.1, hcs.2, groupOrders, inDestination_eq_inGroup,
        getItems_final_same_group _ _ _ _ _ hm, reorderedDestinationGroup,
        renumberFrom_map_order, renumberFrom_length]
      rfl
    · rw [inDestination_eq_inGroup]
      exact groupInvariant_group_congr ordering _ column sect
        (filter_final_other_group _ _ column sect ordering i m _ hitem hm hcs) hinv
  · intro x hx
    obtain ⟨y, hy, o, rfl⟩ := mem_final_fields _ _ _ _ hmove x hx
    exact hseg y hy

theorem toggleOn_preserves (list : List Placement) (terms : List DataItem)
    (hoff : ∀ entry ∈ list, inGroup "columnTwo" "suggestedTerms" entry = false)
    (hinv : GroupInvariant list) (hseg : TermsSegregated list) :
    GroupInvariant (bulkAppend list terms) ∧ TermsSegregated (bulkAppend list terms) := by
  have hnew : ∀ x ∈ suggestedTermsFrom 0 terms, inGroup "columnTwo" "suggestedTerms" x = true := by
    intro x hx
    obtain ⟨-, hc, hs⟩ := suggestedTermsFrom_type 0 terms x hx
    simp [inGroup, hc, hs]
  constructor
  · intro column sect
    by_cases hcs : column = "columnTwo" ∧ sect = "suggestedTerms"
    · have hfil : (bulkAppend list terms).filter (inGroup "columnTwo" "suggestedTerms") =
          suggestedTermsFrom 0 terms := by
        rw [bulkAppend, List.filter_append, List.filter_eq_nil_iff.mpr (by simpa using hoff),
          List.nil_append, List.filter_eq_self.mpr hnew]
      have hget : getItems (some (bulkAppend list terms)) "columnTwo" "suggestedTerms" =
          suggestedTermsFrom 0 terms := by
        rw [getItems_of_sorted, hfil]
        rw [hfil, suggestedTermsFrom_eq_renumberFrom]
        exact renumberFrom_sorted _ _
      rw [hcs.1, hcs.2, groupOrders, hget, suggestedTermsFrom_eq_renumberFrom,
        renumberFrom_map_order, renumberFrom_length]
      rfl
    · apply groupInvariant_group_congr list _ column sect _ hinv
      have hnil : (suggestedTermsFrom 0 terms).filter (inGroup column sect) = [] := by
        rw [List.filter_eq_nil_iff]
        intro x hx
        simp [inGroup_false_of_ne _ _ column sect x (hnew x hx) hcs]
      rw [bulkAppend, List.filter_append, hnil, List.append_nil]
  · intro x hx
    rw [bulkAppend, List.mem_append] at hx
    rcases hx with hx | hx
    · exact hseg x hx
    · obtain ⟨ht, hc, hs⟩ := suggestedTermsFrom_type 0 terms x hx
      exact ⟨fun _ => ⟨hc, hs⟩, fun _ => ht⟩

theorem toggleOff_preserves (list : List Placement)
    (hinv : GroupInvariant list) (hseg : TermsSegregated list) :
    GroupInvariant (bulkRemoveByType list) ∧ TermsSegregated (bulkRemoveByType list) := by
  constructor
  · intro column sect
    by_cases hcs : column = "columnTwo" ∧ sect = "suggestedTerms"
    · have hfil : (bulkRemoveByType list).filter (inGroup column sect) = [] := by
        rw [List.filter_eq_nil_iff]
        intro x hx hgrp
        obtain ⟨hmem, htype⟩ := List.mem_filter.mp hx
        simp only [inGroup, Bool.and_eq_true, beq_iff_eq] at hgrp
        have := (hseg x hmem).mpr ⟨hgrp.1.trans hcs.1, hgrp.2.trans hcs.2⟩
        simp [this] at htype
      rw [groupOrders, getItems_eq_nil _ _ _ hfil]
      rfl
    · apply groupInvariant_group_congr list _ column sect _ hinv
      rw [bulkRemoveByType, List.filter_filter]
      apply List.filter_congr
      intro x hx
      cases hgrp : inGroup column sect x with
      | false => rfl
      | true =>
        have hne : x.type ≠ "suggestedTerms" := by
          intro ht
          have h2 := (hseg x hx).mp ht
          simp only [inGroup, Bool.and_eq_true, beq_iff_eq] at hgrp
          exact hcs ⟨hgrp.1.symm.trans h2.1, hgrp.2.symm.trans h2.2⟩
        simp [hne]
  · intro x hx
    exact hseg x (List.mem_filter.mp hx).1

theorem step_preserves (list list' : List Placement) (hstep : Step list list')
    (h : GroupInvariant list ∧ TermsSegregated list) :
    GroupInvariant list' ∧ TermsSegregated list' := by
  cases hstep with
  | moveWithinGroup source destination _ hsame hmove =>
    exact moveWithinGroup_preserves _ _ _ _ hsame hmove h.1 h.2
  | toggleOn terms hoff => exact toggleOn_preserves _ _ hoff h.1 h.2
  | toggleOff => exact toggleOff_preserves _ h.1 h.2

/-- C6, as stated, fails for each of the three operations. From the empty
list, switching the toggle on twice leaves the orders 1, 1, 2, 2 in the
group (columnTwo, suggestedTerms); switching it on once and dragging `t2`
onto (columnTwo, sectionOne) leaves the orders 1, 1 there, because the
moved entry keeps its column and section; and switching the toggle off on a
list whose group (columnTwo, sectionOne) holds a suggested term with order 1
before a product with order 2 leaves that group with the single order 2. -/
theorem groupInvariant_broken_by_operations :
    (GroupInvariant [] ∧
      Relation.ReflTransGen AnyStep [] (bulkAppend (bulkAppend [] twoTerms) twoTerms) ∧
      groupOrders (bulkAppend (bulkAppend [] twoTerms) twoTerms) "columnTwo" "suggestedTerms" =
        [1, 1, 2, 2] ∧
      ¬ GroupInvariant (bulkAppend (bulkAppend [] twoTerms) twoTerms)) ∧
    (∃ final, finalOrdering (bulkAppend [] twoTerms) ⟨"columnTwo", "suggestedTerms", "t2"⟩
        ⟨"columnTwo", "sectionOne", 0⟩ = some final ∧
      Relation.ReflTransGen AnyStep [] final ∧
      groupOrders final "columnTwo" "suggestedTerms" = [1, 1] ∧
      ¬ GroupInvariant final) ∧
    (GroupInvariant mixedGroupList ∧
      Relation.ReflTransGen AnyStep mixedGroupList (bulkRemoveByType mixedGroupList) ∧
      groupOrders (bulkRemoveByType mixedGroupList) "columnTwo" "sectionOne" = [2] ∧
      ¬ GroupInvariant (bulkRemoveByType mixedGroupList)) := by
  refine ⟨⟨groupInvariant_of_check _ (by decide), ?_, by decide, ?_⟩,
    ⟨_, rfl, ?_, by decide, ?_⟩,
    ⟨groupInvariant_of_check _ (by decide), ?_, by decide, ?_⟩⟩
  · exact Relation.ReflTransGen.tail
      (Relation.ReflTransGen.single (AnyStep.bulkAppend [] twoTerms))
      (AnyStep.bulkAppend _ twoTerms)
  · intro h
    exact absurd (h "columnTwo" "suggestedTerms") (by decide)
  · exact Relation.ReflTransGen.tail
      (Relation.ReflTransGen.single (AnyStep.bulkAppend [] twoTerms))
      (AnyStep.moveItem _ ⟨"columnTwo", "suggestedTerms", "t2"⟩ ⟨"columnTwo", "sectionOne", 0⟩ _
        rfl)
  · intro h
    exact absurd (h "columnTwo" "suggestedTerms") (by decide)
  · exact Relation.ReflTransGen.single (AnyStep.bulkRemoveByType mixedGroupList)
  · intro h
    exact absurd (h "columnTwo" "sectionOne") (by decide)

/-- C6 (amended): the group invariant holds of every ordering list
reachable from a list that satisfies it and in which the entries of type
suggestedTerms are exactly the members of the group (columnTwo,
suggestedTerms) (for example the empty list), by any finite sequence of
these operations: a successful `moveItem` whose destination is the source's
own group, `bulkAppend` applied while the group (columnTwo, suggestedTerms)
is empty, and `bulkRemoveByType`. -/
theorem groupInvariant_of_reachable (initial list : List Placement)
    (hinv : GroupInvariant initial) (hseg : TermsSegregated initial)
    (hreach : Relation.ReflTransGen Step initial list) :
    GroupInvariant list := by
  have hboth : GroupInvariant list ∧ TermsSegregated list := by
    induction hreach with
    | refl => exact ⟨hinv, hseg⟩
    | tail _ hstep ih => exact step_preserves _ _ hstep ih
  exact hboth.1

/-- An instance of C6: from the scenario list, move `p1` to the end of its
group, switch the toggle on with two terms, move `t2` before `t1`, and
switch the toggle off. -/
theorem groupInvariant_of_reachable_witness :
    GroupInvariant
      [{ column := "columnTwo", «section» := "sectionOne", sectionType := none,
         type := "Products", id := "p2", order := 1 },
       { column := "columnTwo", «section» := "sectionOne", sectionType := none,
         type := "Products", id := "p1", order := 2 }] :=
  groupInvariant_of_reachable scenarioList _
    (groupInvariant_of_check _ (by decide)) (by unfold TermsSegregated; decide)
    (Relation.ReflTransGen.tail
      (Relation.ReflTransGen.tail
        (Relation.ReflTransGen.tail
          (Relation.ReflTransGen.single
            (Step.moveWithinGroup scenarioList ⟨"columnTwo", "sectionOne", "p1"⟩
              ⟨"columnTwo", "sectionOne", 1⟩ _ (by decide) rfl))
          (Step.toggleOn _ twoTerms (by decide)))
        (Step.moveWithinGroup _ ⟨"columnTwo", "suggestedTerms", "t2"⟩
          ⟨"columnTwo", "suggestedTerms", 0⟩ _ (by decide) rfl))
      (Step.toggleOff _))

/-! ## Claims on `bulkAppend`, the untouched fields and the drop index -/

theorem suggestedTermsFrom_length (start : Nat) (terms : List DataItem) :
    (suggestedTermsFrom start terms).length = terms.length := by
  rw [suggestedTermsFrom_eq_renumberFrom, renumberFrom_length, List.length_map]

theorem suggestedTermsFrom_getElem? (start : Nat) (terms : List DataItem) (j : Nat) :
    (suggestedTermsFrom start terms)[j]? =
      terms[j]?.map (fun term =>
        { column := "columnTwo", «section» := "suggestedTerms",
          sectionType := some "suggestedTerms", type := "suggestedTerms", id := term._id,
          order := ((start + j : Nat) : Int) + 1 }) := by
  rw [suggestedTermsFrom_eq_renumberFrom, renumberFrom_getElem?, List.getElem?_map,
    Option.map_map]
  rfl

/-- C11: the list written when the toggle is switched on is the stored
list, unchanged and in its original order, followed by exactly as many new
entries as there are terms, in the order of the terms; the entry for the
term at 0-based position `j` (the `j + 1`-th) has order `j + 1`, column
columnTwo, section, sectionType and type suggestedTerms and the id of that
term, whatever entries the stored list holds. -/
theorem bulkAppend_appends_numbered (form : Form) (terms : List DataItem) :
    (onChange true terms form).ordering = bulkAppend form.ordering terms ∧
    ∃ added : List Placement,
      bulkAppend form.ordering terms = form.ordering ++ added ∧
      added.length = terms.length ∧
      ∀ (j : Nat) (term : DataItem), terms[j]? = some term →
        added[j]? = some
          { column := "columnTwo", «section» := "suggestedTerms",
            sectionType := some "suggestedTerms", type := "suggestedTerms", id := term._id,
            order := (j : Int) + 1 } := by
  refine ⟨by simp [onChange, setValue], suggestedTermsFrom 0 terms, rfl,
    suggestedTermsFrom_length 0 terms, ?_⟩
  intro j term hterm
  rw [suggestedTermsFrom_getElem?, hterm, Option.map_some', Nat.zero_add]

/-- An instance of C11: with the scenario list stored and the two terms of
the site, the second new entry is `t2` with order 2. -/
theorem bulkAppend_appends_numbered_witness :
    ∃ added : List Placement,
      bulkAppend scenarioList twoTerms = scenarioList ++ added ∧
      added.length = twoTerms.length ∧
      added[1]? = some
        { column := "columnTwo", «section» := "suggestedTerms",
          sectionType := some "suggestedTerms", type := "suggestedTerms", id := "t2",
          order := 2 } := by
  obtain ⟨added, happ, hlen, hall⟩ :=
    (bulkAppend_appends_numbered ⟨scenarioList, []⟩ twoTerms).2
  exact ⟨added, happ, hlen, hall 1
    { _id := "t2", displayName := none, fieldData := none, title := none, term := some "hats" }
    (by decide)⟩

theorem map_renumberFrom {β : Type} (f : Placement → β)
    (hf : ∀ (x : Placement) (o : Int), f { x with order := o } = f x)
    (start : Nat) (l : List Placement) : (renumberFrom start l).map f = l.map f := by
  induction l generalizing start with
  | nil => rfl
  | cons a l ih => simp only [renumberFrom, List.map_cons, hf, ih]

theorem perm_cons_eraseIdx {α : Type} (l : List α) (i : Nat) (m : α)
    (hitem : l[i]? = some m) : (m :: l.eraseIdx i).Perm l := by
  induction l generalizing i with
  | nil => simp at hitem
  | cons a l ih =>
    cases i with
    | zero =>
      simp only [List.getElem?_cons_zero, Option.some.injEq] at hitem
      subst hitem
      exact List.Perm.refl _
    | succ j =>
      simp only [List.getElem?_cons_succ] at hitem
      rw [List.eraseIdx_cons_succ]
      exact (List.Perm.swap a m _).trans ((ih j hitem).cons a)

/-- The result of a move is, up to the places of its entries, the moved
item followed by the rest of the list, each entry with some new order. -/
theorem map_final_perm {β : Type} (f : Placement → β)
    (hf : ∀ (x : Placement) (o : Int), f { x with order := o } = f x)
    (destination : Destination) (ordering : List Placement) (itemIndex : Nat)
    (movedItem : Placement) (hitem : ordering[itemIndex]? = some movedItem) :
    (((ordering.eraseIdx itemIndex).filter (fun item => !inDestination destination item) ++
        reorderedDestinationGroup
          ((ordering.eraseIdx itemIndex).filter (inDestination destination)) movedItem
          destination.destIndex).map f).Perm (ordering.map f) := by
  rw [List.map_append, reorderedDestinationGroup, map_renumberFrom f hf, ← List.map_append]
  apply List.Perm.map
  have hsplit : (sliceTo ((ordering.eraseIdx itemIndex).filter (inDestination destination))
        destination.destIndex ++ [movedItem] ++
      sliceFrom ((ordering.eraseIdx itemIndex).filter (inDestination destination))
        destination.destIndex).Perm
      (movedItem :: (ordering.eraseIdx itemIndex).filter (inDestination destination)) := by
    rw [List.append_assoc, List.singleton_append]
    refine List.perm_middle.trans ?_
    rw [sliceTo_append_sliceFrom]
  refine ((List.Perm.refl _).append hsplit).trans ?_
  refine List.perm_middle.trans ?_
  refine (List.Perm.cons movedItem ?_).trans (perm_cons_eraseIdx ordering itemIndex movedItem hitem)
  exact List.perm_append_comm.trans (List.filter_append_perm _ _)

/-- C12: a successful `moveItem` changes nothing but `order` fields. The
result has as many entries as the input; the multiset of its (column,
section, type, id) tuples, and indeed of its entries with `order` blanked,
is that of the input; and the moved entry is in the result with the order of
its place in the renumbered sequence and with the column and section of the
source, also when the destination names another group. -/
theorem moveItem_changes_only_order (ordering : List Placement) (source : Source)
    (destination : Destination) (itemIndex : Nat) (movedItem : Placement)
    (hfind : findIndex (isSource source) ordering = some itemIndex)
    (hitem : ordering[itemIndex]? = some movedItem) :
    ∃ final, finalOrdering ordering source destination = some final ∧
      final.length = ordering.length ∧
      (final.map placementKey).Perm (ordering.map placementKey) ∧
      (final.map withoutOrder).Perm (ordering.map withoutOrder) ∧
      ∃ moved ∈ final, withoutOrder moved = withoutOrder movedItem ∧
        moved.order = (relIndex
          ((ordering.eraseIdx itemIndex).filter (inDestination destination)).length
          destination.destIndex : Int) + 1 ∧
        moved.column = source.sourceColumn ∧ moved.«section» = source.sourceSection := by
  obtain ⟨x, hx, hsrc⟩ := findIndex_eq_some _ _ _ hfind
  rw [hitem] at hx
  cases hx
  have hkey := map_final_perm placementKey (fun _ _ => rfl) destination ordering itemIndex
    movedItem hitem
  refine ⟨_, finalOrdering_of_findIndex _ _ _ _ _ hfind hitem, ?_, hkey,
    map_final_perm withoutOrder (fun _ _ => rfl) destination ordering itemIndex movedItem hitem,
    { movedItem with order := (relIndex
        ((ordering.eraseIdx itemIndex).filter (inDestination destination)).length
        destination.destIndex : Int) + 1 }, ?_, rfl, rfl, ?_, ?_⟩
  · simpa using hkey.length_eq
  · rw [reorderedDestinationGroup_eq]
    simp
  · simp only [isSource, Bool.and_eq_true, beq_iff_eq] at hsrc
    exact hsrc.1.1
  · simp only [isSource, Bool.and_eq_true, beq_iff_eq] at hsrc
    exact hsrc.1.2

/-- An instance of C12: `c1` dragged from (columnOne, sectionOne) onto
(columnTwo, sectionOne) is still an entry of column columnOne. -/
theorem moveItem_changes_only_order_witness :
    ∃ final, finalOrdering crossGroupList ⟨"columnOne", "sectionOne", "c1"⟩
        ⟨"columnTwo", "sectionOne", 0⟩ = some final ∧
      final.length = crossGroupList.length ∧
      (final.map placementKey).Perm (crossGroupList.map placementKey) ∧
      ∃ moved ∈ final, moved.id = "c1" ∧ moved.column = "columnOne" ∧
        moved.«section» = "sectionOne" := by
  obtain ⟨final, hfinal, hlen, hkey, -, moved, hmem, hsame, -, hcol, hsec⟩ :=
    moveItem_changes_only_order crossGroupList ⟨"columnOne", "sectionOne", "c1"⟩
      ⟨"columnTwo", "sectionOne", 0⟩ 0
      { column := "columnOne", «section» := "sectionOne", sectionType := none,
        type := "Collections", id := "c1", order := 1 }
      (by decide) (by decide)
  exact ⟨final, hfinal, hlen, hkey, moved, hmem, congrArg Placement.id hsame, hcol, hsec⟩

theorem destIndexOf_eq_clampSpec (y : ℚ) (n : Nat) :
    destIndexOf y n = clampSpec ⌊y / 50⌋ 0 n := by
  unfold destIndexOf clampSpec
  split_ifs with h1 h2 <;> omega

/-- C13: with `y` the pointer offset minus the top of the bounding box, as
an exact rational, and `n` the number of displayed items, the index the drop
handler passes to `moveItem` is `clamp(floor(y / 50), 0, n)`: it lies in
`[0, n]`, it is `floor(y / 50)` whenever that lies in `[0, n]`, it is 0 for
every negative `y` and it is `n` whenever `floor(y / 50) > n`. -/
theorem dropDestination_index_clamped (columnName sectionName : String)
    (items : List Placement) (offsetY boundingTop : ℚ) :
    (dropDestination columnName sectionName items offsetY boundingTop).destIndex =
      clampSpec ⌊(offsetY - boundingTop) / 50⌋ 0 items.length ∧
    0 ≤ (dropDestination columnName sectionName items offsetY boundingTop).destIndex ∧
    (dropDestination columnName sectionName items offsetY boundingTop).destIndex ≤
      items.length ∧
    (0 ≤ ⌊(offsetY - boundingTop) / 50⌋ ∧ ⌊(offsetY - boundingTop) / 50⌋ ≤ items.length →
      (dropDestination columnName sectionName items offsetY boundingTop).destIndex =
        ⌊(offsetY - boundingTop) / 50⌋) ∧
    (offsetY - boundingTop < 0 →
      (dropDestination columnName sectionName items offsetY boundingTop).destIndex = 0) ∧
    ((items.length : Int) < ⌊(offsetY - boundingTop) / 50⌋ →
      (dropDestination columnName sectionName items offsetY boundingTop).destIndex =
        items.length) := by
  have hneg : offsetY - boundingTop < 0 → ⌊(offsetY - boundingTop) / 50⌋ < 0 := by
    intro hy
    rw [Int.floor_lt]
    have : (offsetY - boundingTop) / 50 < 0 := div_neg_of_neg_of_pos hy (by norm_num)
    simpa using this
  refine ⟨destIndexOf_eq_clampSpec _ _, ?_, ?_, ?_, ?_, ?_⟩
  · simp only [dropDestination, destIndexOf]
    omega
  · simp only [dropDestination, destIndexOf]
    omega
  · intro h
    simp only [dropDestination, destIndexOf]
    omega
  · intro hy
    have := hneg hy
    simp only [dropDestination, destIndexOf]
    omega
  · intro h
    simp only [dropDestination, destIndexOf]
    omega

/-- An instance of C13: a pointer 30 pixels above the top of a section of
two items gives index 0. -/
theorem dropDestination_index_clamped_witness :
    (dropDestination "columnTwo" "sectionOne" scenarioList 70 100).destIndex = 0 :=
  (dropDestination_index_clamped "columnTwo" "sectionOne" scenarioList 70 100).2.2.2.2.1
    (by norm_num)

end NoResultWidget
